import Mathlib

/-!
Verification of the libsdbootconf configuration library.

The Rust sources (src/entry.rs, src/config.rs, src/lib.rs) are embedded
shallowly below.  Rust `String`/`&str` values are modelled as `List Char`
(`Str`); the functions mirror the source line by line.  The filesystem is
modelled as an association list from paths to file contents plus a list of
existing directories; `fs::read_to_string`, `fs::write` and `fs::read_dir`
become pure operations on that structure.
-/

/-- Rust strings are modelled as lists of characters. -/
abbrev Str := List Char

/-- Embed a Lean string literal as a `Str`. -/
def str (s : String) : Str := s.data

/-- Strip one trailing carriage return, as Rust `str::lines` does on each
line that was terminated by a newline. -/
def stripCR (l : Str) : Str :=
  if l.getLast? = some '\r' then l.dropLast else l

/-- Worker for `rustLines`: `cur` is the current (reversed) partial line. -/
def rustLinesAux : Str → Str → List Str
  | cur, [] => if cur = [] then [] else [cur.reverse]
  | cur, c :: rest =>
    if c = '\n' then stripCR cur.reverse :: rustLinesAux [] rest
    else rustLinesAux (c :: cur) rest

/-- Rust `str::lines`: split at newlines, strip a carriage return preceding
each newline, and do not produce a final empty line for a trailing
newline. -/
def rustLines (s : Str) : List Str := rustLinesAux [] s

/-- Rust `s.splitn(2, ' ')` as used by the parsers: the part before the
first space, and (when a space exists) the remainder after it. -/
def splitFirstSpace : Str → Str × Option Str
  | [] => ([], none)
  | c :: cs =>
    if c = ' ' then ([], some cs)
    else
      let r := splitFirstSpace cs
      (c :: r.1, r.2)

/-- Strip a single leading `'+'`, as Rust's unsigned integer parser does. -/
def stripPlus : Str → Str
  | [] => []
  | c :: cs => if c = '+' then cs else c :: cs

/-- Numeric value of a decimal digit character. -/
def digitVal (c : Char) : Nat := c.toNat - 48

/-- Rust `str::parse::<u32>()`: an optional leading `'+'`, then one or more
decimal digits, rejecting the empty string, non-digit characters and
values outside the `u32` range. -/
def parseU32 (s : Str) : Option Nat :=
  let t := stripPlus s
  if t = [] then none
  else if t.all Char.isDigit then
    let n := t.foldl (fun a c => 10 * a + digitVal c) 0
    if n < 4294967296 then some n else none
  else none

/-- The decimal digit character of `d < 10`. -/
def digitChar (d : Nat) : Char := Char.ofNat (48 + d)

/-- Decimal rendering of a natural number, as Rust's `Display` for `u32`. -/
def natToChars (n : Nat) : Str :=
  if _h : n < 10 then [digitChar n]
  else natToChars (n / 10) ++ [digitChar (n % 10)]
decreasing_by exact Nat.div_lt_self (by omega) (by omega)

/-- Rust `Path::join` for the relative file names this library produces:
the directory, a separator, and the name. -/
def pathJoin (dir name : Str) : Str := dir ++ '/' :: name

/-- Rust `Path::file_name` for the paths this library builds (no trailing
separator): the component after the last `'/'`, `none` when empty.
`OsStr::to_str` is the identity here since all modelled strings are
valid text. -/
def fileName (p : Str) : Option Str :=
  let base := (p.reverse.takeWhile (fun c => decide (¬ c = '/'))).reverse
  if base = [] then none else some base

/-- Rust `str::strip_suffix`. -/
def stripSuffix (s suf : Str) : Option Str :=
  if suf <:+ s then some (s.take (s.length - suf.length)) else none

/-- `std::io::ErrorKind`, restricted to what the model can produce. -/
inductive IOErrorKind where
  | notFound
deriving DecidableEq

/-- The library's error enum (src/lib.rs). `InvalidToken` is the error the
spec calls `UnknownKeyword`: an entry line with an unrecognized keyword. -/
inductive LibSDBootConfError where
  | ConfigParseError
  | EntryParseError
  | InvalidEntryFilename (p : Str)
  | IOError (k : IOErrorKind)
  | InvalidToken (k : Str)
deriving DecidableEq

instance {ε α : Type} [DecidableEq ε] [DecidableEq α] : DecidableEq (Except ε α) := fun x y =>
  match x, y with
  | .ok a, .ok b =>
    if h : a = b then isTrue (by rw [h]) else isFalse (fun hh => h (Except.ok.inj hh))
  | .error a, .error b =>
    if h : a = b then isTrue (by rw [h]) else isFalse (fun hh => h (Except.error.inj hh))
  | .ok _, .error _ => isFalse (fun hh => Except.noConfusion hh)
  | .error _, .ok _ => isFalse (fun hh => Except.noConfusion hh)

/-- The filesystem model: regular files (path, contents) and directories.
Write failures are not modelled; reads of absent paths fail. -/
structure FS where
  files : List (Str × Str)
  dirs : List Str
deriving DecidableEq

/-- Look a path up in the file table. -/
def lookupFile : List (Str × Str) → Str → Option Str
  | [], _ => none
  | (q, c) :: rest, p => if q = p then some c else lookupFile rest p

/-- Remove a path from the file table. -/
def removeFile : List (Str × Str) → Str → List (Str × Str)
  | [], _ => []
  | (q, c) :: rest, p => if q = p then removeFile rest p else (q, c) :: removeFile rest p

/-- `fs::read_to_string`: contents of a regular file, or a not-found
I/O error. -/
def FS.read (fs : FS) (p : Str) : Except LibSDBootConfError Str :=
  match lookupFile fs.files p with
  | some c => .ok c
  | none => .error (.IOError .notFound)

/-- `Path::is_file`: the path names a regular file. -/
def FS.isFile (fs : FS) (p : Str) : Bool := (lookupFile fs.files p).isSome

/-- The name of `q` as a direct child of directory `d`, if it is one. -/
def childName? (d q : Str) : Option Str :=
  if (d ++ ['/']) <+: q then
    let rest := q.drop (d.length + 1)
    if rest ≠ [] ∧ '/' ∉ rest then some rest else none
  else none

/-- `fs::read_dir`: the direct children of an existing directory, or a
not-found I/O error. -/
def FS.read_dir (fs : FS) (d : Str) : Except LibSDBootConfError (List Str) :=
  if d ∈ fs.dirs then
    .ok ((fs.files.map Prod.fst ++ fs.dirs).filter (fun q => (childName? d q).isSome))
  else .error (.IOError .notFound)

/-- `fs::write`: create or unconditionally overwrite a regular file. -/
def FS.writeFile (fs : FS) (p c : Str) : FS :=
  { fs with files := (p, c) :: removeFile fs.files p }

/-- `Token` (src/entry.rs): the possible fields of an `Entry`.  `PathBuf`
payloads are strings; `PathBuf::from` / `Path::display` round-trip them
unchanged. -/
inductive Token where
  | Title (s : Str)
  | Version (s : Str)
  | MachineID (s : Str)
  | Efi (p : Str)
  | Options (s : Str)
  | Linux (p : Str)
  | Initrd (p : Str)
deriving DecidableEq

/-- `Token::from_str` (src/entry.rs): split at the first space into keyword
and value; fail with `EntryParseError` when there is no space, and with
`InvalidToken` on an unrecognized keyword. -/
def Token.from_str (s : Str) : Except LibSDBootConfError Token :=
  match splitFirstSpace s with
  | (_, none) => .error .EntryParseError
  | (key, some value) =>
    if key = str "title" then .ok (.Title value)
    else if key = str "version" then .ok (.Version value)
    else if key = str "machine-id" then .ok (.MachineID value)
    else if key = str "efi" then .ok (.Efi value)
    else if key = str "options" then .ok (.Options value)
    else if key = str "linux" then .ok (.Linux value)
    else if key = str "initrd" then .ok (.Initrd value)
    else .error (.InvalidToken key)

/-- `Token::to_string` (src/entry.rs): `"<keyword> <value>\n"`. -/
def Token.to_string : Token → Str
  | .Title s => str "title " ++ s ++ ['\n']
  | .Version s => str "version " ++ s ++ ['\n']
  | .MachineID s => str "machine-id " ++ s ++ ['\n']
  | .Efi p => str "efi " ++ p ++ ['\n']
  | .Options s => str "options " ++ s ++ ['\n']
  | .Linux p => str "linux " ++ p ++ ['\n']
  | .Initrd p => str "initrd " ++ p ++ ['\n']

/-- The payload carried by a token. -/
def Token.payload : Token → Str
  | .Title s => s
  | .Version s => s
  | .MachineID s => s
  | .Efi p => p
  | .Options s => s
  | .Linux p => p
  | .Initrd p => p

/-- The keyword of a token's rendered line. -/
def tokenKey : Token → Str
  | .Title _ => str "title"
  | .Version _ => str "version"
  | .MachineID _ => str "machine-id"
  | .Efi _ => str "efi"
  | .Options _ => str "options"
  | .Linux _ => str "linux"
  | .Initrd _ => str "initrd"

/-- `Entry` (src/entry.rs): an identifier and the ordered token list. -/
structure Entry where
  id : Str
  tokens : List Token
deriving DecidableEq

/-- The loop body of `Entry::from_str`: skip comment and empty lines, parse
every other line as a token, aborting on the first failure. -/
def Entry.fromLines : List Token → List Str → Except LibSDBootConfError (List Token)
  | acc, [] => .ok acc
  | acc, l :: ls =>
    if l.head? = some '#' ∨ l = [] then Entry.fromLines acc ls
    else
      match Token.from_str l with
      | .error e => .error e
      | .ok t => Entry.fromLines (acc ++ [t]) ls

/-- `Entry::from_str` (src/entry.rs): the id is left empty. -/
def Entry.from_str (s : Str) : Except LibSDBootConfError Entry :=
  (Entry.fromLines [] (rustLines s)).map (fun ts => { id := [], tokens := ts })

/-- `Entry::to_string` (src/entry.rs): concatenation of the rendered
tokens. -/
def Entry.to_string (e : Entry) : Str := (e.tokens.map Token.to_string).flatten

/-- `Entry::load` (src/entry.rs): derive the id from the file name with the
`.conf` suffix stripped, then parse the file's contents. -/
def Entry.load (fs : FS) (p : Str) : Except LibSDBootConfError Entry :=
  match fileName p with
  | none => .error (.InvalidEntryFilename p)
  | some name =>
    match stripSuffix name (str ".conf") with
    | none => .error (.InvalidEntryFilename p)
    | some id0 =>
      match FS.read fs p with
      | .error e => .error e
      | .ok content => (Entry.from_str content).map (fun e => { e with id := id0 })

/-- `Entry::write` (src/entry.rs): write the rendered entry to the given
path, overwriting unconditionally. -/
def Entry.write (e : Entry) (p : Str) (fs : FS) : FS :=
  FS.writeFile fs p (Entry.to_string e)

/-- `Config` (src/config.rs): both fields optional.  `timeout` is a `u32`;
its range invariant appears as a hypothesis where it matters. -/
structure Config where
  default : Option Str
  timeout : Option Nat
deriving DecidableEq

/-- The loop body of `Config::from_str`: skip comment and empty lines,
split at the first space (no space is `ConfigParseError`), store
`default` verbatim, parse `timeout` with fallback `0`, and silently
ignore every other key. -/
def configLine (c : Config) (l : Str) : Except LibSDBootConfError Config :=
  if l.head? = some '#' ∨ l = [] then .ok c
  else
    match splitFirstSpace l with
    | (_, none) => .error .ConfigParseError
    | (key, some value) =>
      if key = str "default" then .ok { c with default := some value }
      else if key = str "timeout" then .ok { c with timeout := some ((parseU32 value).getD 0) }
      else .ok c

/-- Fold of `configLine` over the lines of the input. -/
def Config.fromLines : Config → List Str → Except LibSDBootConfError Config
  | c, [] => .ok c
  | c, l :: ls =>
    match configLine c l with
    | .error e => .error e
    | .ok c2 => Config.fromLines c2 ls

/-- `Config::from_str` (src/config.rs). -/
def Config.from_str (s : Str) : Except LibSDBootConfError Config :=
  Config.fromLines { default := none, timeout := none } (rustLines s)

/-- `Config::to_string` (src/config.rs): a `default` line if set, then a
`timeout` line if set. -/
def Config.to_string (c : Config) : Str :=
  (match c.default with
   | some d => str "default " ++ d ++ ['\n']
   | none => []) ++
  (match c.timeout with
   | some n => str "timeout " ++ natToChars n ++ ['\n']
   | none => [])

/-- `Config::set_default` (src/config.rs): the entry's id, with `".conf"`
appended when the id does not already end with it. -/
def Config.set_default (c : Config) (e : Entry) : Config :=
  { c with default := some (e.id ++ (if str ".conf" <:+ e.id then [] else str ".conf")) }

/-- `Config::default_entry` (src/config.rs): `None` when `default` is
unset, otherwise load the entry at `<directory>/<default>`. -/
def Config.default_entry (c : Config) (dir : Str) (fs : FS) :
    Except LibSDBootConfError (Option Entry) :=
  match c.default with
  | none => .ok none
  | some d => (Entry.load fs (pathJoin dir d)).map some

/-- `Config::load` (src/config.rs). -/
def Config.load (fs : FS) (p : Str) : Except LibSDBootConfError Config :=
  match FS.read fs p with
  | .error e => .error e
  | .ok s => Config.from_str s

/-- `Config::write` (src/config.rs). -/
def Config.write (c : Config) (p : Str) (fs : FS) : FS :=
  FS.writeFile fs p (Config.to_string c)

/-- `SystemdBootConf` (src/lib.rs). -/
structure SystemdBootConf where
  working_dir : Str
  config : Config
  entries : List Entry
deriving DecidableEq

/-- The entry loop of `SystemdBootConf::load_current`: load every regular
file of the listed paths as an entry, aborting on the first failure. -/
def loadEntryFiles (fs : FS) : List Str → Except LibSDBootConfError (List Entry)
  | [] => .ok []
  | p :: ps =>
    if FS.isFile fs p then
      match Entry.load fs p with
      | .error e => .error e
      | .ok ent =>
        match loadEntryFiles fs ps with
        | .error e => .error e
        | .ok es => .ok (ent :: es)
    else loadEntryFiles fs ps

/-- `SystemdBootConf::load_current` (src/lib.rs), with the mutation
discipline made explicit: the returned state is the receiver on every
early error return, and the fields are assigned only after both the
config and all entries have loaded. -/
def SystemdBootConf.load_current (self : SystemdBootConf) (fs : FS) :
    Except LibSDBootConfError Unit × SystemdBootConf :=
  match Config.load fs (pathJoin self.working_dir (str "loader.conf")) with
  | .error e => (.error e, self)
  | .ok config =>
    match FS.read_dir fs (pathJoin self.working_dir (str "entries")) with
    | .error e => (.error e, self)
    | .ok paths =>
      match loadEntryFiles fs paths with
      | .error e => (.error e, self)
      | .ok entries => (.ok (), { self with config := config, entries := entries })

/-- `SystemdBootConf::write_entries` (src/lib.rs): write every entry to
`<working_dir>/entries/<id>.conf`. -/
def SystemdBootConf.write_entries (self : SystemdBootConf) (fs : FS) : FS :=
  self.entries.foldl
    (fun f e =>
      Entry.write e (pathJoin (pathJoin self.working_dir (str "entries")) (e.id ++ str ".conf")) f)
    fs

/-- Whether a loader-config line is recognized: not skipped, and keyed
`default` or `timeout`. -/
def configRecognized (l : Str) : Bool :=
  decide (¬ (l.head? = some '#' ∨ l = []) ∧
    ((splitFirstSpace l).1 = str "default" ∨ (splitFirstSpace l).1 = str "timeout"))

/-- The `default` value a loader-config line stores, if any. -/
def lineDefaultVal : Str → Option Str
  | l =>
    if l.head? = some '#' ∨ l = [] then none
    else
      match splitFirstSpace l with
      | (_, none) => none
      | (key, some value) => if key = str "default" then some value else none

/-- The `timeout` value a loader-config line stores, if any. -/
def lineTimeoutVal : Str → Option Nat
  | l =>
    if l.head? = some '#' ∨ l = [] then none
    else
      match splitFirstSpace l with
      | (_, none) => none
      | (key, some value) =>
        if key = str "default" then none
        else if key = str "timeout" then some ((parseU32 value).getD 0) else none

/-! ## String-level helper lemmas -/

theorem splitFirstSpace_append (k v : Str) (h : ' ' ∉ k) :
    splitFirstSpace (k ++ ' ' :: v) = (k, some v) := by
  induction k with
  | nil => simp [splitFirstSpace]
  | cons c k ih =>
    rw [List.mem_cons, not_or] at h
    simp only [List.cons_append, splitFirstSpace, List.append_eq]
    rw [if_neg (fun hh => h.1 hh.symm), ih h.2]

theorem splitFirstSpace_no_space (l : Str) (h : ' ' ∉ l) :
    splitFirstSpace l = (l, none) := by
  induction l with
  | nil => rfl
  | cons c l ih =>
    rw [List.mem_cons, not_or] at h
    simp only [splitFirstSpace]
    rw [if_neg (fun hh => h.1 hh.symm), ih h.2]

theorem splitFirstSpace_of_mem (l : Str) (h : ' ' ∈ l) :
    ∃ k v, splitFirstSpace l = (k, some v) := by
  induction l with
  | nil => cases h
  | cons c l ih =>
    by_cases hc : c = ' '
    · exact ⟨[], l, by simp [splitFirstSpace, hc]⟩
    · have hm : ' ' ∈ l := by
        rcases List.mem_cons.mp h with h1 | h1
        · exact absurd h1.symm hc
        · exact h1
      obtain ⟨k, v, hkv⟩ := ih hm
      exact ⟨c :: k, v, by simp [splitFirstSpace, hc, hkv]⟩

theorem rustLinesAux_line (l : Str) (h : '\n' ∉ l) : ∀ cur rest,
    rustLinesAux cur (l ++ '\n' :: rest) = stripCR (cur.reverse ++ l) :: rustLinesAux [] rest := by
  induction l with
  | nil => intro cur rest; simp [rustLinesAux]
  | cons c l ih =>
    intro cur rest
    rw [List.mem_cons, not_or] at h
    simp only [List.cons_append, rustLinesAux, List.append_eq]
    rw [if_neg (fun hh => h.1 hh.symm), ih h.2 (c :: cur) rest]
    simp

theorem rustLines_line (l : Str) (h : '\n' ∉ l) (rest : Str) :
    rustLines (l ++ '\n' :: rest) = stripCR l :: rustLines rest := by
  have := rustLinesAux_line l h [] rest
  simpa [rustLines] using this

theorem rustLinesAux_last (l : Str) (h : '\n' ∉ l) : ∀ cur,
    rustLinesAux cur l =
      if cur.reverse ++ l = [] then [] else [cur.reverse ++ l] := by
  induction l with
  | nil => intro cur; simp [rustLinesAux]
  | cons c l ih =>
    intro cur
    rw [List.mem_cons, not_or] at h
    simp only [rustLinesAux]
    rw [if_neg (fun hh => h.1 hh.symm), ih h.2 (c :: cur)]
    simp

theorem rustLines_no_newline (l : Str) (h : '\n' ∉ l) :
    rustLines l = if l = [] then [] else [l] := by
  have := rustLinesAux_last l h []
  simpa [rustLines] using this

theorem stripCR_eq (l : Str) (h : l.getLast? ≠ some '\r') : stripCR l = l := by
  unfold stripCR
  rw [if_neg h]

theorem getLast?_ne_of_all (l : Str) (x : Char) (h : ∀ c ∈ l, ¬ c = x) :
    l.getLast? ≠ some x := by
  induction l with
  | nil => simp
  | cons c l ih =>
    cases l with
    | nil =>
      simp only [List.getLast?_singleton]
      intro hh
      exact h c (List.mem_cons_self c []) (Option.some.inj hh)
    | cons b m =>
      rw [List.getLast?_cons_cons]
      exact ih (fun d hd => h d (List.mem_cons_of_mem c hd))

theorem getLast?_line (k p : Str) (hp : p.getLast? ≠ some '\r') :
    (k ++ ' ' :: p).getLast? ≠ some '\r' := by
  rw [List.getLast?_append_cons k ' ' p]
  cases p with
  | nil => simp
  | cons b m =>
    rw [List.getLast?_cons_cons]
    exact hp

theorem line_not_skip (l : Str) (c0 : Char) (h : l.head? = some c0) (hc : ¬ c0 = '#') :
    ¬ (l.head? = some '#' ∨ l = []) := by
  rintro (h1 | h1)
  · rw [h] at h1; exact hc (Option.some.inj h1)
  · rw [h1] at h; cases h

/-! ## Decimal digits and `u32` printing/parsing -/

theorem digitChar_isDigit (d : Nat) (h : d < 10) : (digitChar d).isDigit = true := by
  interval_cases d <;> decide

theorem digitVal_digitChar (d : Nat) (h : d < 10) : digitVal (digitChar d) = d := by
  interval_cases d <;> decide

theorem isDigit_ne (c : Char) (h : c.isDigit = true) :
    ¬ c = '\n' ∧ ¬ c = '\r' ∧ ¬ c = '+' := by
  refine ⟨?_, ?_, ?_⟩ <;> (rintro rfl; exact absurd h (by decide))

theorem natToChars_all_digit (n : Nat) : ∀ c ∈ natToChars n, c.isDigit = true := by
  induction n using Nat.strong_induction_on with
  | _ n ih =>
    rw [natToChars]
    split
    · intro c hc
      rw [List.mem_singleton] at hc
      exact hc ▸ digitChar_isDigit n (by omega)
    · intro c hc
      rcases List.mem_append.mp hc with h1 | h1
      · exact ih (n / 10) (Nat.div_lt_self (by omega) (by omega)) c h1
      · rw [List.mem_singleton] at h1
        exact h1 ▸ digitChar_isDigit (n % 10) (Nat.mod_lt _ (by omega))

theorem natToChars_ne_nil (n : Nat) : natToChars n ≠ [] := by
  rw [natToChars]
  split <;> simp

theorem foldl_natToChars (n : Nat) :
    (natToChars n).foldl (fun a c => 10 * a + digitVal c) 0 = n := by
  induction n using Nat.strong_induction_on with
  | _ n ih =>
    rw [natToChars]
    split
    · simp only [List.foldl_cons, List.foldl_nil]
      rw [digitVal_digitChar n (by omega)]
      omega
    · rw [List.foldl_append, ih (n / 10) (Nat.div_lt_self (by omega) (by omega))]
      simp only [List.foldl_cons, List.foldl_nil]
      rw [digitVal_digitChar (n % 10) (Nat.mod_lt _ (by omega))]
      omega

theorem stripPlus_natToChars (n : Nat) : stripPlus (natToChars n) = natToChars n := by
  cases h : natToChars n with
  | nil => rfl
  | cons c cs =>
    have hc : c.isDigit = true := natToChars_all_digit n c (h ▸ List.mem_cons_self c cs)
    simp [stripPlus, (isDigit_ne c hc).2.2]

theorem parseU32_natToChars (n : Nat) (h : n < 4294967296) :
    parseU32 (natToChars n) = some n := by
  unfold parseU32
  rw [stripPlus_natToChars, if_neg (natToChars_ne_nil n),
    if_pos (List.all_eq_true.mpr (natToChars_all_digit n))]
  simp only [foldl_natToChars]
  rw [if_pos h]

theorem natToChars_no_newline (n : Nat) : '\n' ∉ natToChars n := by
  intro hm
  exact (isDigit_ne _ (natToChars_all_digit n _ hm)).1 rfl

theorem natToChars_last_ne_cr (n : Nat) : (natToChars n).getLast? ≠ some '\r' := by
  exact getLast?_ne_of_all _ _ (fun c hc => (isDigit_ne c (natToChars_all_digit n c hc)).2.1)

/-! ## Codec step lemmas -/

theorem token_from_str_keyval (l k v : Str) (hkv : splitFirstSpace l = (k, some v)) :
    Token.from_str l =
      (if k = str "title" then .ok (.Title v)
       else if k = str "version" then .ok (.Version v)
       else if k = str "machine-id" then .ok (.MachineID v)
       else if k = str "efi" then .ok (.Efi v)
       else if k = str "options" then .ok (.Options v)
       else if k = str "linux" then .ok (.Linux v)
       else if k = str "initrd" then .ok (.Initrd v)
       else .error (.InvalidToken k)) := by
  unfold Token.from_str
  rw [hkv]

theorem token_from_str_nospace (l : Str) (h : ' ' ∉ l) :
    Token.from_str l = .error .EntryParseError := by
  unfold Token.from_str
  rw [splitFirstSpace_no_space l h]

theorem configLine_skip (c : Config) (l : Str) (h : l.head? = some '#' ∨ l = []) :
    configLine c l = .ok c := by
  unfold configLine
  rw [if_pos h]

theorem configLine_keyval (c : Config) (l k v : Str)
    (hs : ¬ (l.head? = some '#' ∨ l = [])) (hkv : splitFirstSpace l = (k, some v)) :
    configLine c l =
      (if k = str "default" then .ok { c with default := some v }
       else if k = str "timeout" then .ok { c with timeout := some ((parseU32 v).getD 0) }
       else .ok c) := by
  unfold configLine
  rw [if_neg hs, hkv]

theorem configLine_nospace (c : Config) (l : Str)
    (hs : ¬ (l.head? = some '#' ∨ l = [])) (hsp : ' ' ∉ l) :
    configLine c l = .error .ConfigParseError := by
  unfold configLine
  rw [if_neg hs, splitFirstSpace_no_space l hsp]

theorem entry_fromLines_skip (acc : List Token) (l : Str) (ls : List Str)
    (h : l.head? = some '#' ∨ l = []) :
    Entry.fromLines acc (l :: ls) = Entry.fromLines acc ls := by
  simp only [Entry.fromLines]
  rw [if_pos h]

theorem entry_fromLines_tok (acc : List Token) (l : Str) (ls : List Str) (t : Token)
    (hs : ¬ (l.head? = some '#' ∨ l = [])) (ht : Token.from_str l = .ok t) :
    Entry.fromLines acc (l :: ls) = Entry.fromLines (acc ++ [t]) ls := by
  simp only [Entry.fromLines]
  rw [if_neg hs, ht]

theorem entry_fromLines_err (acc : List Token) (l : Str) (ls : List Str)
    (e : LibSDBootConfError)
    (hs : ¬ (l.head? = some '#' ∨ l = [])) (he : Token.from_str l = .error e) :
    Entry.fromLines acc (l :: ls) = .error e := by
  simp only [Entry.fromLines]
  rw [if_neg hs, he]

theorem config_fromLines_cons (c : Config) (l : Str) (ls : List Str) (c2 : Config)
    (h : configLine c l = .ok c2) :
    Config.fromLines c (l :: ls) = Config.fromLines c2 ls := by
  simp only [Config.fromLines]
  rw [h]

theorem config_fromLines_cons_err (c : Config) (l : Str) (ls : List Str)
    (e : LibSDBootConfError) (h : configLine c l = .error e) :
    Config.fromLines c (l :: ls) = .error e := by
  simp only [Config.fromLines]
  rw [h]

/-! ## Rendered token lines -/

theorem tokenKey_no_space (t : Token) : ' ' ∉ tokenKey t := by
  cases t <;> simp only [tokenKey] <;> decide

theorem tokenKey_no_newline (t : Token) : '\n' ∉ tokenKey t := by
  cases t <;> simp only [tokenKey] <;> decide

theorem cons_append_not_skip (c : Char) (hc : ¬ c = '#') (l1 l2 : Str) :
    ¬ (((c :: l1) ++ l2).head? = some '#' ∨ (c :: l1) ++ l2 = []) := by
  rintro (h | h)
  · rw [List.cons_append, List.head?_cons] at h
    exact hc (Option.some.inj h)
  · rw [List.cons_append] at h
    cases h

theorem token_line_not_skip (t : Token) (v : Str) :
    ¬ ((tokenKey t ++ ' ' :: v).head? = some '#' ∨ tokenKey t ++ ' ' :: v = []) := by
  cases t with
  | Title s => exact cons_append_not_skip 't' (by decide) (str "itle") _
  | Version s => exact cons_append_not_skip 'v' (by decide) (str "ersion") _
  | MachineID s => exact cons_append_not_skip 'm' (by decide) (str "achine-id") _
  | Efi p => exact cons_append_not_skip 'e' (by decide) (str "fi") _
  | Options s => exact cons_append_not_skip 'o' (by decide) (str "ptions") _
  | Linux p => exact cons_append_not_skip 'l' (by decide) (str "inux") _
  | Initrd p => exact cons_append_not_skip 'i' (by decide) (str "nitrd") _

theorem token_to_string_eq (t : Token) :
    Token.to_string t = (tokenKey t ++ ' ' :: t.payload) ++ ['\n'] := by
  have h1 : str "title " = str "title" ++ [' '] := by decide
  have h2 : str "version " = str "version" ++ [' '] := by decide
  have h3 : str "machine-id " = str "machine-id" ++ [' '] := by decide
  have h4 : str "efi " = str "efi" ++ [' '] := by decide
  have h5 : str "options " = str "options" ++ [' '] := by decide
  have h6 : str "linux " = str "linux" ++ [' '] := by decide
  have h7 : str "initrd " = str "initrd" ++ [' '] := by decide
  cases t <;> simp [Token.to_string, tokenKey, Token.payload, h1, h2, h3, h4, h5, h6, h7]

theorem token_from_line (t : Token) :
    Token.from_str (tokenKey t ++ ' ' :: t.payload) = .ok t := by
  rw [token_from_str_keyval _ _ _ (splitFirstSpace_append _ _ (tokenKey_no_space t))]
  cases t <;> simp +decide [tokenKey, Token.payload]

theorem rustLines_render (ts : List Token)
    (h : ∀ t ∈ ts, '\n' ∉ t.payload ∧ t.payload.getLast? ≠ some '\r') :
    rustLines ((ts.map Token.to_string).flatten) =
      ts.map (fun t => tokenKey t ++ ' ' :: t.payload) := by
  induction ts with
  | nil => simp [rustLines, rustLinesAux]
  | cons t ts ih =>
    have ht := h t (List.mem_cons_self t ts)
    have hline : '\n' ∉ tokenKey t ++ ' ' :: t.payload := by
      intro hm
      rcases List.mem_append.mp hm with h1 | h1
      · exact tokenKey_no_newline t h1
      · rcases List.mem_cons.mp h1 with h2 | h2
        · exact absurd h2 (by decide)
        · exact ht.1 h2
    simp only [List.map_cons, List.flatten_cons]
    rw [token_to_string_eq t, List.append_assoc, List.singleton_append]
    rw [rustLines_line _ hline, stripCR_eq _ (getLast?_line _ _ ht.2),
      ih (fun u hu => h u (List.mem_cons_of_mem t hu))]

theorem entry_fromLines_map (ts : List Token) : ∀ acc,
    Entry.fromLines acc (ts.map (fun t => tokenKey t ++ ' ' :: t.payload)) = .ok (acc ++ ts) := by
  induction ts with
  | nil => intro acc; simp [Entry.fromLines]
  | cons t ts ih =>
    intro acc
    rw [List.map_cons,
      entry_fromLines_tok acc _ _ t (token_line_not_skip t t.payload) (token_from_line t),
      ih (acc ++ [t])]
    simp

/-! ## Claim C1: entry codec round trip -/

/-- C1 counterexample: the entry `[Title "a\nlinux b"]` renders to a text with
no blank and no comment lines, yet parsing the rendering yields the token
sequence `[Title "a", Linux "b"]`, not the original one. -/
theorem claim_C1_counterexample :
    ((rustLines (Entry.to_string { id := [], tokens := [Token.Title (str "a\nlinux b")] })).all
      (fun l => decide (¬ l = [] ∧ ¬ l.head? = some '#')) = true) ∧
    (Entry.from_str (Entry.to_string { id := [], tokens := [Token.Title (str "a\nlinux b")] })).map
      Entry.tokens ≠ .ok [Token.Title (str "a\nlinux b")] := by
  exact ⟨by decide, by decide⟩

/-- C1 (amended): for every Token, parsing the rendered line minus its final
newline yields the token back exactly; and for every Entry none of whose
token payloads contains a newline or ends with a carriage return, parsing
the rendered entry reproduces the token sequence (id excluded). -/
theorem claim_C1_roundtrip :
    (∀ t : Token, Token.from_str (Token.to_string t).dropLast = .ok t) ∧
    (∀ e : Entry, (∀ t ∈ e.tokens, '\n' ∉ t.payload ∧ t.payload.getLast? ≠ some '\r') →
      (Entry.from_str (Entry.to_string e)).map Entry.tokens = .ok e.tokens) := by
  constructor
  · intro t
    rw [token_to_string_eq t, List.dropLast_concat, token_from_line]
  · intro e h
    unfold Entry.from_str Entry.to_string
    rw [rustLines_render e.tokens h, entry_fromLines_map e.tokens []]
    rfl

/-- C1 witness: round trip at a concrete token and a concrete entry. -/
theorem claim_C1_witness :
    Token.from_str (Token.to_string (Token.Title (str "AOSC OS"))).dropLast =
      .ok (Token.Title (str "AOSC OS")) ∧
    (Entry.from_str (Entry.to_string
        { id := str "m", tokens := [Token.Title (str "AOSC OS")] })).map Entry.tokens =
      .ok [Token.Title (str "AOSC OS")] :=
  ⟨claim_C1_roundtrip.1 _,
   claim_C1_roundtrip.2 { id := str "m", tokens := [Token.Title (str "AOSC OS")] } (by decide)⟩

/-! ## Claim C5: aggregate load atomicity -/

/-- C5: whenever `load_current` returns an error, the returned aggregate
state is exactly the receiver — config and entries are untouched. -/
theorem claim_C5_load_atomic (sbc : SystemdBootConf) (fs : FS) (e : LibSDBootConfError)
    (h : (SystemdBootConf.load_current sbc fs).1 = .error e) :
    (SystemdBootConf.load_current sbc fs).2 = sbc := by
  revert h
  unfold SystemdBootConf.load_current
  cases Config.load fs (pathJoin sbc.working_dir (str "loader.conf")) with
  | error e1 => intro _; rfl
  | ok cfg =>
    dsimp only
    cases FS.read_dir fs (pathJoin sbc.working_dir (str "entries")) with
    | error e1 => intro _; rfl
    | ok paths =>
      dsimp only
      cases loadEntryFiles fs paths with
      | error e1 => intro _; rfl
      | ok entries => intro h; exact Except.noConfusion h

/-- C5 witness: loading from an empty filesystem fails (no loader.conf) and
leaves the aggregate unchanged. -/
theorem claim_C5_witness :
    (SystemdBootConf.load_current
      { working_dir := str "w", config := { default := none, timeout := none }, entries := [] }
      { files := [], dirs := [] }).2 =
    { working_dir := str "w", config := { default := none, timeout := none }, entries := [] } :=
  claim_C5_load_atomic _ _ (.IOError .notFound) (by decide)

/-! ## Claim C7: set_default postcondition -/

/-- C7: after `set_default`, the `default` field is the entry's id with
`.conf` appended exactly when the id does not already end in `.conf`, and
rendering after `set_default` with id `"foo"` or `"foo.conf"` produces the
same `"default foo.conf"` line. -/
theorem claim_C7_set_default :
    (∀ (c : Config) (e : Entry),
      (Config.set_default c e).default =
        some (if str ".conf" <:+ e.id then e.id else e.id ++ str ".conf") ∧
      (Config.set_default c e).timeout = c.timeout) ∧
    Config.to_string (Config.set_default { default := none, timeout := none }
      { id := str "foo", tokens := [] }) = str "default foo.conf\n" ∧
    Config.to_string (Config.set_default { default := none, timeout := none }
      { id := str "foo.conf", tokens := [] }) = str "default foo.conf\n" := by
  refine ⟨fun c e => ⟨?_, rfl⟩, by decide, by decide⟩
  unfold Config.set_default
  by_cases h : str ".conf" <:+ e.id
  · rw [if_pos h, if_pos h]
    simp
  · rw [if_neg h, if_neg h]

/-! ## Claim C9: entry write destination -/

/-- C9: writing an entry stores exactly the rendered text at the target
path, overwriting whatever was there, touching no other path; and
`write_entries` writes an entry with identifier `id` to
`<working_dir>/entries/<id>.conf`. -/
theorem claim_C9_write_destination :
    (∀ (fs : FS) (p : Str) (e : Entry),
      lookupFile ((Entry.write e p fs).files) p = some (Entry.to_string e)) ∧
    (∀ (fs : FS) (p q : Str) (e : Entry), ¬ q = p →
      lookupFile ((Entry.write e p fs).files) q = lookupFile fs.files q) ∧
    (∀ (sbc : SystemdBootConf) (fs : FS) (e : Entry), sbc.entries = [e] →
      lookupFile ((SystemdBootConf.write_entries sbc fs).files)
        (pathJoin (pathJoin sbc.working_dir (str "entries")) (e.id ++ str ".conf")) =
        some (Entry.to_string e)) := by
  have hrm : ∀ (files : List (Str × Str)) (p q : Str), ¬ q = p →
      lookupFile (removeFile files p) q = lookupFile files q := by
    intro files p q hqp
    induction files with
    | nil => rfl
    | cons fc rest ih =>
      obtain ⟨r, c⟩ := fc
      by_cases hr : r = p
      · simp only [removeFile, if_pos hr, ih, lookupFile]
        rw [if_neg (fun hh => hqp (hh ▸ hr.symm).symm)]
      · simp only [removeFile, if_neg hr, lookupFile]
        by_cases hrq : r = q
        · rw [if_pos hrq, if_pos hrq]
        · rw [if_neg hrq, if_neg hrq, ih]
  have h1 : ∀ (fs : FS) (p : Str) (e : Entry),
      lookupFile ((Entry.write e p fs).files) p = some (Entry.to_string e) := by
    intro fs p e
    simp [Entry.write, FS.writeFile, lookupFile]
  refine ⟨h1, ?_, ?_⟩
  · intro fs p q e hqp
    simp only [Entry.write, FS.writeFile, lookupFile]
    rw [if_neg (fun hh => hqp hh.symm), hrm fs.files p q hqp]
  · intro sbc fs e hsb
    show lookupFile ((SystemdBootConf.write_entries sbc fs).files) _ = _
    unfold SystemdBootConf.write_entries
    rw [hsb]
    exact h1 fs _ e

/-- C9 witness: a concrete overwrite, an untouched second path, and a
concrete `write_entries` destination. -/
theorem claim_C9_witness :
    lookupFile ((Entry.write { id := str "a", tokens := [] } (str "p")
      { files := [(str "p", str "old"), (str "q", str "keep")], dirs := [] }).files) (str "p") =
      some (Entry.to_string { id := str "a", tokens := [] }) ∧
    lookupFile ((Entry.write { id := str "a", tokens := [] } (str "p")
      { files := [(str "p", str "old"), (str "q", str "keep")], dirs := [] }).files) (str "q") =
      lookupFile [(str "p", str "old"), (str "q", str "keep")] (str "q") ∧
    lookupFile ((SystemdBootConf.write_entries
      { working_dir := str "w", config := { default := none, timeout := none },
        entries := [{ id := str "a", tokens := [] }] } { files := [], dirs := [] }).files)
      (pathJoin (pathJoin (str "w") (str "entries")) (str "a" ++ str ".conf")) =
      some (Entry.to_string { id := str "a", tokens := [] }) :=
  ⟨claim_C9_write_destination.1 _ _ _,
   claim_C9_write_destination.2.1 _ _ _ _ (by decide),
   claim_C9_write_destination.2.2 _ _ { id := str "a", tokens := [] } rfl⟩

/-! ## Path and suffix lemmas for Entry.load -/

theorem takeWhile_eq_of (p : Char → Bool) (xs : Str) (hxs : ∀ a ∈ xs, p a = true)
    (c : Char) (hc : p c = false) (ys : Str) : (xs ++ c :: ys).takeWhile p = xs := by
  induction xs with
  | nil => simp [List.takeWhile, hc]
  | cons a xs ih =>
    have ha := hxs a (List.mem_cons_self a xs)
    simp [List.takeWhile, ha, ih (fun b hb => hxs b (List.mem_cons_of_mem a hb))]

theorem fileName_join (dir d : Str) (hne : ¬ d = []) (hslash : '/' ∉ d) :
    fileName (pathJoin dir d) = some d := by
  simp only [fileName, pathJoin]
  have h1 : (dir ++ '/' :: d).reverse = d.reverse ++ '/' :: dir.reverse := by
    rw [List.reverse_append, List.reverse_cons]
    simp
  have h2 : (d.reverse ++ '/' :: dir.reverse).takeWhile (fun c => decide (¬ c = '/')) =
      d.reverse := by
    refine takeWhile_eq_of _ _ ?_ _ (by decide) _
    intro a ha
    rw [List.mem_reverse] at ha
    exact decide_eq_true (fun hh => hslash (hh ▸ ha))
  rw [h1, h2, List.reverse_reverse, if_neg hne]

theorem suffix_ne_nil (d : Str) (h : str ".conf" <:+ d) : ¬ d = [] := by
  obtain ⟨t, ht⟩ := h
  intro h0
  rw [h0] at ht
  exact absurd (List.append_eq_nil.mp ht).2 (by decide)

theorem stripSuffix_pos (s suf : Str) (h : suf <:+ s) :
    stripSuffix s suf = some (s.take (s.length - suf.length)) := by
  unfold stripSuffix
  rw [if_pos h]

theorem stripSuffix_neg (s suf : Str) (h : ¬ suf <:+ s) : stripSuffix s suf = none := by
  unfold stripSuffix
  rw [if_neg h]

/-! ## Claim C4: default resolution -/

/-- C4: `default_entry` returns `Ok(None)` when `default` is unset; when set
to `d` it is exactly the (lifted) result of `Entry::load` on
`<dir>/<d>`, so a missing file yields the not-found I/O error, a name
without the `.conf` suffix yields `InvalidEntryFilename`, and malformed
content propagates the parse error. -/
theorem claim_C4_default_resolution (c : Config) (dir : Str) (fs : FS) :
    (c.default = none → Config.default_entry c dir fs = .ok none) ∧
    (∀ d, c.default = some d →
      Config.default_entry c dir fs = (Entry.load fs (pathJoin dir d)).map some) ∧
    (∀ d, c.default = some d → ¬ d = [] → '/' ∉ d → ¬ str ".conf" <:+ d →
      Config.default_entry c dir fs = .error (.InvalidEntryFilename (pathJoin dir d))) ∧
    (∀ d, c.default = some d → '/' ∉ d → str ".conf" <:+ d →
      lookupFile fs.files (pathJoin dir d) = none →
      Config.default_entry c dir fs = .error (.IOError .notFound)) ∧
    (∀ d content err, c.default = some d → '/' ∉ d → str ".conf" <:+ d →
      lookupFile fs.files (pathJoin dir d) = some content →
      Entry.from_str content = .error err →
      Config.default_entry c dir fs = .error err) := by
  refine ⟨?_, ?_, ?_, ?_, ?_⟩
  · intro h
    unfold Config.default_entry
    rw [h]
  · intro d h
    unfold Config.default_entry
    rw [h]
  · intro d h hne hsl hsuf
    unfold Config.default_entry
    rw [h]
    dsimp only
    unfold Entry.load
    rw [fileName_join dir d hne hsl]
    dsimp only
    rw [stripSuffix_neg d _ hsuf]
    rfl
  · intro d h hsl hsuf hlook
    unfold Config.default_entry
    rw [h]
    dsimp only
    unfold Entry.load
    rw [fileName_join dir d (suffix_ne_nil d hsuf) hsl]
    dsimp only
    rw [stripSuffix_pos d _ hsuf]
    dsimp only
    unfold FS.read
    rw [hlook]
    rfl
  · intro d content err h hsl hsuf hlook herr
    unfold Config.default_entry
    rw [h]
    dsimp only
    unfold Entry.load
    rw [fileName_join dir d (suffix_ne_nil d hsuf) hsl]
    dsimp only
    rw [stripSuffix_pos d _ hsuf]
    dsimp only
    unfold FS.read
    rw [hlook]
    dsimp only
    rw [herr]
    rfl

/-- C4 witness: concrete instances of the five conjuncts. -/
theorem claim_C4_witness :
    Config.default_entry { default := none, timeout := none } (str "d")
      { files := [], dirs := [] } = .ok none ∧
    Config.default_entry { default := some (str "a.conf"), timeout := none } (str "d")
      { files := [], dirs := [] } =
      (Entry.load { files := [], dirs := [] } (pathJoin (str "d") (str "a.conf"))).map some ∧
    Config.default_entry { default := some (str "a"), timeout := none } (str "d")
      { files := [], dirs := [] } =
      .error (.InvalidEntryFilename (pathJoin (str "d") (str "a"))) ∧
    Config.default_entry { default := some (str "a.conf"), timeout := none } (str "d")
      { files := [], dirs := [] } = .error (.IOError .notFound) ∧
    Config.default_entry { default := some (str "a.conf"), timeout := none } (str "d")
      { files := [(pathJoin (str "d") (str "a.conf"), str "bad")], dirs := [] } =
      .error .EntryParseError :=
  ⟨(claim_C4_default_resolution _ _ _).1 rfl,
   (claim_C4_default_resolution _ _ _).2.1 _ rfl,
   (claim_C4_default_resolution _ _ _).2.2.1 _ rfl (by decide) (by decide) (by decide),
   (claim_C4_default_resolution _ _ _).2.2.2.1 _ rfl (by decide) (by decide) (by decide),
   (claim_C4_default_resolution _ _ _).2.2.2.2 (str "a.conf") (str "bad") .EntryParseError rfl
     (by decide) (by decide) (by decide) (by decide)⟩

/-! ## Rendered loader-config lines -/

theorem default_line_split (d : Str) :
    str "default " ++ d ++ ['\n'] = (str "default" ++ ' ' :: d) ++ '\n' :: ([] : Str) := by
  rw [show str "default " = str "default" ++ [' '] from by decide]
  simp

theorem timeout_line_split (v : Str) :
    str "timeout " ++ v ++ ['\n'] = (str "timeout" ++ ' ' :: v) ++ '\n' :: ([] : Str) := by
  rw [show str "timeout " = str "timeout" ++ [' '] from by decide]
  simp

theorem rustLines_keyval_line (k d rest : Str) (hk : '\n' ∉ k) (hd1 : '\n' ∉ d)
    (hd2 : d.getLast? ≠ some '\r') :
    rustLines ((k ++ ' ' :: d) ++ '\n' :: rest) = (k ++ ' ' :: d) :: rustLines rest := by
  have hno : '\n' ∉ k ++ ' ' :: d := by
    intro hm
    rcases List.mem_append.mp hm with h1 | h1
    · exact hk h1
    · rcases List.mem_cons.mp h1 with h2 | h2
      · exact absurd h2 (by decide)
      · exact hd1 h2
  rw [rustLines_line _ hno, stripCR_eq _ (getLast?_line _ _ hd2)]

theorem configLine_default_line (c : Config) (d : Str) :
    configLine c (str "default" ++ ' ' :: d) = .ok { c with default := some d } := by
  have hs : ¬ ((str "default" ++ ' ' :: d).head? = some '#' ∨ str "default" ++ ' ' :: d = []) :=
    cons_append_not_skip 'd' (by decide) (str "efault") (' ' :: d)
  have hkv : splitFirstSpace (str "default" ++ ' ' :: d) = (str "default", some d) :=
    splitFirstSpace_append (str "default") d (by decide)
  rw [configLine_keyval c _ _ _ hs hkv, if_pos rfl]

theorem configLine_timeout_line (c : Config) (v : Str) :
    configLine c (str "timeout" ++ ' ' :: v) =
      .ok { c with timeout := some ((parseU32 v).getD 0) } := by
  have hs : ¬ ((str "timeout" ++ ' ' :: v).head? = some '#' ∨ str "timeout" ++ ' ' :: v = []) :=
    cons_append_not_skip 't' (by decide) (str "imeout") (' ' :: v)
  have hkv : splitFirstSpace (str "timeout" ++ ' ' :: v) = (str "timeout", some v) :=
    splitFirstSpace_append (str "timeout") v (by decide)
  rw [configLine_keyval c _ _ _ hs hkv, if_neg (by decide), if_pos rfl]

theorem default_line_prepend (d rest : Str) :
    (str "default " ++ d ++ ['\n']) ++ rest = (str "default" ++ ' ' :: d) ++ '\n' :: rest := by
  rw [show str "default " = str "default" ++ [' '] from by decide]
  simp

/-! ## Claim C6: config round trip -/

/-- C6 counterexample: a `default` value containing a newline breaks the
round trip — the rendering splits into a second, malformed line and the
parse fails. -/
theorem claim_C6_counterexample :
    Config.from_str (Config.to_string { default := some (str "a\nb"), timeout := none }) ≠
      .ok { default := some (str "a\nb"), timeout := none } := by
  decide

/-- C6 (amended): for every Config whose `default`, when set, contains no
newline and does not end with a carriage return (`timeout`, a `u32`, is in
range), parsing the rendering reproduces the config exactly, in each of
the four set/unset field combinations. -/
theorem claim_C6_roundtrip (c : Config)
    (hd : ∀ d, c.default = some d → '\n' ∉ d ∧ d.getLast? ≠ some '\r')
    (ht : ∀ n, c.timeout = some n → n < 4294967296) :
    Config.from_str (Config.to_string c) = .ok c := by
  obtain ⟨od, ot⟩ := c
  cases od with
  | none =>
    cases ot with
    | none => decide
    | some n =>
      have hn := ht n rfl
      unfold Config.to_string
      dsimp only
      rw [List.nil_append, timeout_line_split]
      unfold Config.from_str
      rw [rustLines_keyval_line _ _ _ (by decide) (natToChars_no_newline n)
          (natToChars_last_ne_cr n),
        config_fromLines_cons _ _ _ _ (configLine_timeout_line _ (natToChars n)),
        show rustLines [] = [] from rfl]
      simp only [Config.fromLines]
      rw [parseU32_natToChars n hn]
      rfl
  | some d =>
    have hdp := hd d rfl
    cases ot with
    | none =>
      unfold Config.to_string
      dsimp only
      rw [default_line_prepend]
      unfold Config.from_str
      rw [rustLines_keyval_line _ _ _ (by decide) hdp.1 hdp.2,
        config_fromLines_cons _ _ _ _ (configLine_default_line _ d),
        show rustLines [] = [] from rfl]
      simp only [Config.fromLines]
    | some n =>
      have hn := ht n rfl
      unfold Config.to_string
      dsimp only
      rw [default_line_prepend, timeout_line_split]
      unfold Config.from_str
      rw [rustLines_keyval_line _ _ _ (by decide) hdp.1 hdp.2,
        config_fromLines_cons _ _ _ _ (configLine_default_line _ d),
        rustLines_keyval_line _ _ _ (by decide) (natToChars_no_newline n)
          (natToChars_last_ne_cr n),
        config_fromLines_cons _ _ _ _ (configLine_timeout_line _ (natToChars n)),
        show rustLines [] = [] from rfl]
      simp only [Config.fromLines]
      rw [parseU32_natToChars n hn]
      rfl

/-- C6 witness: round trip at a concrete config with both fields set. -/
theorem claim_C6_witness :
    Config.from_str (Config.to_string { default := some (str "a"), timeout := some 5 }) =
      .ok { default := some (str "a"), timeout := some 5 } :=
  claim_C6_roundtrip { default := some (str "a"), timeout := some 5 }
    (fun d hdq => by cases hdq; exact ⟨by decide, by decide⟩)
    (fun n hnq => by cases hnq; decide)

/-! ## Loader-config line characterization -/

theorem configLine_ok_of_good (c : Config) (l : Str)
    (h : ¬ (l.head? = some '#' ∨ l = []) → ' ' ∈ l) :
    ∃ c2, configLine c l = .ok c2 := by
  by_cases hs : l.head? = some '#' ∨ l = []
  · exact ⟨c, configLine_skip c l hs⟩
  · obtain ⟨k, v, hkv⟩ := splitFirstSpace_of_mem l (h hs)
    rw [configLine_keyval c l k v hs hkv]
    by_cases h1 : k = str "default"
    · rw [if_pos h1]
      exact ⟨_, rfl⟩
    · rw [if_neg h1]
      by_cases h2 : k = str "timeout"
      · rw [if_pos h2]
        exact ⟨_, rfl⟩
      · rw [if_neg h2]
        exact ⟨_, rfl⟩

theorem fromLines_err_of_bad : ∀ (ls : List Str) (c : Config),
    (∃ l ∈ ls, ¬ l = [] ∧ ¬ l.head? = some '#' ∧ ' ' ∉ l) →
    Config.fromLines c ls = .error .ConfigParseError := by
  intro ls
  induction ls with
  | nil =>
    intro c h
    obtain ⟨l, hl, _⟩ := h
    cases hl
  | cons l0 ls ih =>
    intro c h
    by_cases hbad : ¬ l0 = [] ∧ ¬ l0.head? = some '#' ∧ ' ' ∉ l0
    · have hs : ¬ (l0.head? = some '#' ∨ l0 = []) := by
        rintro (h1 | h1)
        exacts [hbad.2.1 h1, hbad.1 h1]
      rw [config_fromLines_cons_err c l0 ls _ (configLine_nospace c l0 hs hbad.2.2)]
    · have hgood : ¬ (l0.head? = some '#' ∨ l0 = []) → ' ' ∈ l0 := by
        intro hs
        by_contra hsp
        exact hbad ⟨fun h1 => hs (Or.inr h1), fun h1 => hs (Or.inl h1), hsp⟩
      obtain ⟨c2, hc2⟩ := configLine_ok_of_good c l0 hgood
      rw [config_fromLines_cons c l0 ls c2 hc2]
      apply ih
      obtain ⟨l, hl, hlbad⟩ := h
      rcases List.mem_cons.mp hl with rfl | hmem
      · exact absurd hlbad hbad
      · exact ⟨l, hmem, hlbad⟩

theorem fromLines_ok_of_all_good : ∀ (ls : List Str) (c : Config),
    (∀ l ∈ ls, ¬ (l.head? = some '#' ∨ l = []) → ' ' ∈ l) →
    ∃ c2, Config.fromLines c ls = .ok c2 := by
  intro ls
  induction ls with
  | nil =>
    intro c _
    exact ⟨c, rfl⟩
  | cons l0 ls ih =>
    intro c h
    obtain ⟨c1, hc1⟩ := configLine_ok_of_good c l0 (h l0 (List.mem_cons_self l0 ls))
    rw [config_fromLines_cons c l0 ls c1 hc1]
    exact ih c1 (fun l hl => h l (List.mem_cons_of_mem l0 hl))

/-! ## Claim C8: config parse failure condition -/

/-- C8: parsing `loader.conf` text fails — and then exactly with
`ConfigParseError` — if and only if some non-blank line not starting with
`#` contains no space; when every such line contains a space the parse
succeeds. -/
theorem claim_C8_parse_failure (s : Str) :
    (Config.from_str s = .error .ConfigParseError ↔
      ∃ l ∈ rustLines s, ¬ l = [] ∧ ¬ l.head? = some '#' ∧ ' ' ∉ l) ∧
    ((∀ l ∈ rustLines s, ¬ (l.head? = some '#' ∨ l = []) → ' ' ∈ l) →
      ∃ c, Config.from_str s = .ok c) := by
  constructor
  · constructor
    · intro herr
      by_contra hno
      have hgood : ∀ l ∈ rustLines s, ¬ (l.head? = some '#' ∨ l = []) → ' ' ∈ l := by
        intro l hl hs
        by_contra hsp
        exact hno ⟨l, hl, fun h1 => hs (Or.inr h1), fun h1 => hs (Or.inl h1), hsp⟩
      obtain ⟨c, hc⟩ := fromLines_ok_of_all_good (rustLines s) _ hgood
      rw [show Config.from_str s =
          Config.fromLines { default := none, timeout := none } (rustLines s) from rfl, hc] at herr
      exact Except.noConfusion herr
    · exact fun h => fromLines_err_of_bad (rustLines s) _ h
  · exact fun h => fromLines_ok_of_all_good (rustLines s) _ h

/-- C8 witness: a spaceless unrecognized-key line fails the parse with
`ConfigParseError`; a text whose lines all have spaces parses. -/
theorem claim_C8_witness :
    Config.from_str (str "foo") = .error .ConfigParseError ∧
    ∃ c, Config.from_str (str "default a\nbar b") = .ok c :=
  ⟨(claim_C8_parse_failure (str "foo")).1.mpr (by decide),
   (claim_C8_parse_failure (str "default a\nbar b")).2 (by decide)⟩

/-! ## Claim C2: asymmetric unknown-key policy -/

theorem entry_fromLines_unknown : ∀ (pre : List Str) (acc : List Token) (kw v : Str)
    (post : List Str),
    (∀ l ∈ pre, (l.head? = some '#' ∨ l = []) ∨ ∃ t, Token.from_str l = .ok t) →
    ' ' ∉ kw → ¬ (kw ++ ' ' :: v).head? = some '#' →
    kw ∉ [str "title", str "version", str "machine-id", str "efi", str "options",
      str "linux", str "initrd"] →
    Entry.fromLines acc (pre ++ (kw ++ ' ' :: v) :: post) = .error (.InvalidToken kw) := by
  intro pre
  induction pre with
  | nil =>
    intro acc kw v post _ hsp hhash hkw
    have hs : ¬ ((kw ++ ' ' :: v).head? = some '#' ∨ kw ++ ' ' :: v = []) := by
      rintro (h1 | h1)
      · exact hhash h1
      · cases kw <;> simp at h1
    have htok : Token.from_str (kw ++ ' ' :: v) = .error (.InvalidToken kw) := by
      rw [token_from_str_keyval _ _ _ (splitFirstSpace_append kw v hsp)]
      simp only [List.mem_cons, List.not_mem_nil, or_false, not_or] at hkw
      rw [if_neg hkw.1, if_neg hkw.2.1, if_neg hkw.2.2.1, if_neg hkw.2.2.2.1,
        if_neg hkw.2.2.2.2.1, if_neg hkw.2.2.2.2.2.1, if_neg hkw.2.2.2.2.2.2]
    rw [List.nil_append, entry_fromLines_err acc _ post _ hs htok]
  | cons l0 pre ih =>
    intro acc kw v post hpre hsp hhash hkw
    by_cases hskip : l0.head? = some '#' ∨ l0 = []
    · rw [List.cons_append, entry_fromLines_skip acc l0 _ hskip]
      exact ih acc kw v post (fun l hl => hpre l (List.mem_cons_of_mem l0 hl)) hsp hhash hkw
    · rcases hpre l0 (List.mem_cons_self l0 pre) with hskip0 | ⟨t, ht⟩
      · exact absurd hskip0 hskip
      · rw [List.cons_append, entry_fromLines_tok acc l0 _ t hskip ht]
        exact ih (acc ++ [t]) kw v post (fun l hl => hpre l (List.mem_cons_of_mem l0 hl))
          hsp hhash hkw

theorem fromLines_filter_recognized : ∀ (ls : List Str) (c : Config),
    (∀ l ∈ ls, ¬ (l.head? = some '#' ∨ l = []) → ' ' ∈ l) →
    Config.fromLines c ls = Config.fromLines c (ls.filter configRecognized) := by
  intro ls
  induction ls with
  | nil => intro c _; rfl
  | cons l0 ls ih =>
    intro c h
    have htail : ∀ l ∈ ls, ¬ (l.head? = some '#' ∨ l = []) → ' ' ∈ l :=
      fun l hl => h l (List.mem_cons_of_mem l0 hl)
    by_cases hrec : configRecognized l0 = true
    · rw [List.filter_cons_of_pos hrec]
      obtain ⟨c1, hc1⟩ := configLine_ok_of_good c l0 (h l0 (List.mem_cons_self l0 ls))
      rw [config_fromLines_cons c l0 _ c1 hc1, config_fromLines_cons c l0 _ c1 hc1, ih c1 htail]
    · rw [List.filter_cons_of_neg hrec]
      have hprop : ¬ (¬ (l0.head? = some '#' ∨ l0 = []) ∧
          ((splitFirstSpace l0).1 = str "default" ∨ (splitFirstSpace l0).1 = str "timeout")) := by
        simpa [configRecognized] using hrec
      have hid : configLine c l0 = .ok c := by
        by_cases hskip : l0.head? = some '#' ∨ l0 = []
        · exact configLine_skip c l0 hskip
        · obtain ⟨k, v, hkv⟩ := splitFirstSpace_of_mem l0 (h l0 (List.mem_cons_self l0 ls) hskip)
          have h1 : (splitFirstSpace l0).1 = k := by rw [hkv]
          have hk : ¬ (k = str "default" ∨ k = str "timeout") := by
            rintro (hh | hh)
            · exact hprop ⟨hskip, Or.inl (h1.trans hh)⟩
            · exact hprop ⟨hskip, Or.inr (h1.trans hh)⟩
          rw [configLine_keyval c l0 k v hskip hkv, if_neg (fun hh => hk (Or.inl hh)),
            if_neg (fun hh => hk (Or.inr hh))]
      rw [config_fromLines_cons c l0 ls c hid, ih c htail]

/-- C2: an entry file whose first non-skipped, non-token line is
`<kw> <value>` with `kw` outside the seven recognized keywords fails with
`InvalidToken kw` (the spec's `UnknownKeyword`); a loader config whose
non-blank, non-comment lines all contain a space parses successfully, and
the result is exactly what the recognized (`default`/`timeout`) lines
determine — unknown keys are ignored. -/
theorem claim_C2_unknown_key_policy :
    (∀ (s : Str) (pre post : List Str) (kw v : Str),
      rustLines s = pre ++ (kw ++ ' ' :: v) :: post →
      (∀ l ∈ pre, (l.head? = some '#' ∨ l = []) ∨ ∃ t, Token.from_str l = .ok t) →
      ' ' ∉ kw → ¬ (kw ++ ' ' :: v).head? = some '#' →
      kw ∉ [str "title", str "version", str "machine-id", str "efi", str "options",
        str "linux", str "initrd"] →
      Entry.from_str s = .error (.InvalidToken kw)) ∧
    (∀ s : Str,
      (∀ l ∈ rustLines s, ¬ (l.head? = some '#' ∨ l = []) → ' ' ∈ l) →
      (∃ c, Config.from_str s = .ok c) ∧
      Config.from_str s =
        Config.fromLines { default := none, timeout := none }
          ((rustLines s).filter configRecognized)) := by
  constructor
  · intro s pre post kw v hlines hpre hsp hhash hkw
    unfold Entry.from_str
    rw [hlines, entry_fromLines_unknown pre [] kw v post hpre hsp hhash hkw]
    rfl
  · intro s h
    exact ⟨fromLines_ok_of_all_good (rustLines s) _ h,
      fromLines_filter_recognized (rustLines s) _ h⟩

/-- C2 witness: `"foo bar"` after a comment and a blank line fails the entry
parse with the unknown keyword `foo`; the same key inside `loader.conf`
is ignored and the parse succeeds. -/
theorem claim_C2_witness :
    Entry.from_str (str "# c\n\nfoo bar\n") = .error (.InvalidToken (str "foo")) ∧
    ((∃ c, Config.from_str (str "default a\nfoo bar\n") = .ok c) ∧
      Config.from_str (str "default a\nfoo bar\n") =
        Config.fromLines { default := none, timeout := none }
          ((rustLines (str "default a\nfoo bar\n")).filter configRecognized)) :=
  ⟨claim_C2_unknown_key_policy.1 (str "# c\n\nfoo bar\n") [str "# c", []] [] (str "foo")
      (str "bar") (by decide)
      (by
        intro l hl
        rcases List.mem_cons.mp hl with rfl | hl
        · exact Or.inl (Or.inl rfl)
        · rcases List.mem_cons.mp hl with rfl | hl
          · exact Or.inl (Or.inr rfl)
          · cases hl)
      (by decide) (by decide) (by decide),
   claim_C2_unknown_key_policy.2 (str "default a\nfoo bar\n") (by decide)⟩

/-! ## Claim C10: duplicate keys, last occurrence wins -/

theorem getLast?_cons_eq {α : Type} (a : α) (l : List α) :
    (a :: l).getLast? = match l.getLast? with | some x => some x | none => some a := by
  induction l generalizing a with
  | nil => rfl
  | cons b m ih =>
    rw [List.getLast?_cons_cons, ih b]
    cases m.getLast? with
    | none => rfl
    | some x => rfl

theorem lineDefaultVal_skip (l : Str) (h : l.head? = some '#' ∨ l = []) :
    lineDefaultVal l = none := by
  unfold lineDefaultVal
  rw [if_pos h]

theorem lineTimeoutVal_skip (l : Str) (h : l.head? = some '#' ∨ l = []) :
    lineTimeoutVal l = none := by
  unfold lineTimeoutVal
  rw [if_pos h]

theorem lineDefaultVal_keyval (l k v : Str) (hs : ¬ (l.head? = some '#' ∨ l = []))
    (hkv : splitFirstSpace l = (k, some v)) :
    lineDefaultVal l = (if k = str "default" then some v else none) := by
  unfold lineDefaultVal
  rw [if_neg hs, hkv]

theorem lineTimeoutVal_keyval (l k v : Str) (hs : ¬ (l.head? = some '#' ∨ l = []))
    (hkv : splitFirstSpace l = (k, some v)) :
    lineTimeoutVal l =
      (if k = str "default" then none
       else if k = str "timeout" then some ((parseU32 v).getD 0) else none) := by
  unfold lineTimeoutVal
  rw [if_neg hs, hkv]

theorem configLine_vals (c : Config) (l : Str) (c2 : Config) (h : configLine c l = .ok c2) :
    (c2.default = match lineDefaultVal l with | some v => some v | none => c.default) ∧
    (c2.timeout = match lineTimeoutVal l with | some v => some v | none => c.timeout) := by
  by_cases hskip : l.head? = some '#' ∨ l = []
  · rw [configLine_skip c l hskip] at h
    injection h with h1
    subst h1
    rw [lineDefaultVal_skip l hskip, lineTimeoutVal_skip l hskip]
    exact ⟨rfl, rfl⟩
  · cases hsp : splitFirstSpace l with
    | mk k ov =>
      cases ov with
      | none =>
        unfold configLine at h
        rw [if_neg hskip, hsp] at h
        exact Except.noConfusion h
      | some v =>
        rw [configLine_keyval c l k v hskip hsp] at h
        rw [lineDefaultVal_keyval l k v hskip hsp, lineTimeoutVal_keyval l k v hskip hsp]
        by_cases h1 : k = str "default"
        · rw [if_pos h1] at h
          injection h with h2
          subst h2
          rw [if_pos h1, if_pos h1]
          exact ⟨rfl, rfl⟩
        · rw [if_neg h1] at h
          rw [if_neg h1, if_neg h1]
          by_cases h2 : k = str "timeout"
          · rw [if_pos h2] at h
            injection h with h3
            subst h3
            rw [if_pos h2]
            exact ⟨rfl, rfl⟩
          · rw [if_neg h2] at h
            injection h with h3
            subst h3
            rw [if_neg h2]
            exact ⟨rfl, rfl⟩

theorem fromLines_last_vals : ∀ (ls : List Str) (c c2 : Config),
    Config.fromLines c ls = .ok c2 →
    (c2.default = match (ls.filterMap lineDefaultVal).getLast? with
      | some v => some v
      | none => c.default) ∧
    (c2.timeout = match (ls.filterMap lineTimeoutVal).getLast? with
      | some v => some v
      | none => c.timeout) := by
  intro ls
  induction ls with
  | nil =>
    intro c c2 h
    injection h with h1
    subst h1
    exact ⟨rfl, rfl⟩
  | cons l0 ls ih =>
    intro c c2 h
    cases hm : configLine c l0 with
    | error e =>
      rw [config_fromLines_cons_err c l0 ls e hm] at h
      exact Except.noConfusion h
    | ok cm =>
      rw [config_fromLines_cons c l0 ls cm hm] at h
      obtain ⟨ihd, iht⟩ := ih cm c2 h
      obtain ⟨hd0, ht0⟩ := configLine_vals c l0 cm hm
      constructor
      · rw [ihd, hd0, List.filterMap_cons]
        cases lineDefaultVal l0 with
        | none => rfl
        | some v0 =>
          rw [getLast?_cons_eq v0 (ls.filterMap lineDefaultVal)]
          cases (ls.filterMap lineDefaultVal).getLast? with
          | none => rfl
          | some x => rfl
      · rw [iht, ht0, List.filterMap_cons]
        cases lineTimeoutVal l0 with
        | none => rfl
        | some v0 =>
          rw [getLast?_cons_eq v0 (ls.filterMap lineTimeoutVal)]
          cases (ls.filterMap lineTimeoutVal).getLast? with
          | none => rfl
          | some x => rfl

/-- C10: when the parse succeeds, the resulting `default` (resp. `timeout`)
field is exactly the value stored by the last recognized `default`
(resp. `timeout`) line, unset when no such line exists — earlier
occurrences leave no trace. -/
theorem claim_C10_last_wins (s : Str) (c2 : Config) (h : Config.from_str s = .ok c2) :
    (c2.default = match ((rustLines s).filterMap lineDefaultVal).getLast? with
      | some v => some v
      | none => none) ∧
    (c2.timeout = match ((rustLines s).filterMap lineTimeoutVal).getLast? with
      | some v => some v
      | none => none) :=
  fromLines_last_vals (rustLines s) { default := none, timeout := none } c2 h

/-- C10 witness: with duplicated `default` and `timeout` lines, the parse
result holds the values of the last occurrences. -/
theorem claim_C10_witness :
    (({ default := some (str "b"), timeout := some 2 } : Config).default =
      match ((rustLines (str "default a\ntimeout 1\ndefault b\ntimeout 2")).filterMap
        lineDefaultVal).getLast? with
      | some v => some v
      | none => none) ∧
    (({ default := some (str "b"), timeout := some 2 } : Config).timeout =
      match ((rustLines (str "default a\ntimeout 1\ndefault b\ntimeout 2")).filterMap
        lineTimeoutVal).getLast? with
      | some v => some v
      | none => none) :=
  claim_C10_last_wins (str "default a\ntimeout 1\ndefault b\ntimeout 2")
    { default := some (str "b"), timeout := some 2 } (by decide)

/-! ## Claim C3: permissive timeout fallback -/

/-- C3 counterexample: the fallback is per-line, not per-text.  In
`"timeout abc\ntimeout 5"` the line `timeout abc` has an unparseable
value, yet the parse result carries `Some 5` (the later line wins), not
`Some 0`; and in `"timeout abc\nx"` parsing fails outright on the
spaceless line `x` although the claim predicts success. -/
theorem claim_C3_counterexample :
    Config.from_str (str "timeout abc\ntimeout 5") =
      .ok { default := none, timeout := some 5 } ∧
    ({ default := none, timeout := some 5 } : Config).timeout ≠ some 0 ∧
    Config.from_str (str "timeout abc\nx") = .error .ConfigParseError := by
  exact ⟨by decide, by decide, by decide⟩

/-- C3 (amended): for every input text that contains a line
`timeout <value>` whose value does not parse as a `u32`, provided that
line is the last timeout-storing line and every non-blank, non-`#` line
of the text contains a space, Config parsing succeeds and the resulting
config has `timeout` set to `Some 0` (not unset). -/
theorem claim_C3_timeout_fallback (s : Str) (pre post : List Str) (v : Str)
    (hlines : rustLines s = pre ++ (str "timeout" ++ ' ' :: v) :: post)
    (hv : parseU32 v = none)
    (hgood : ∀ l ∈ rustLines s, ¬ (l.head? = some '#' ∨ l = []) → ' ' ∈ l)
    (hpost : ∀ l ∈ post, lineTimeoutVal l = none) :
    ∃ c, Config.from_str s = .ok c ∧ c.timeout = some 0 := by
  obtain ⟨c, hc⟩ :=
    fromLines_ok_of_all_good (rustLines s) { default := none, timeout := none } hgood
  refine ⟨c, hc, ?_⟩
  have hvals := fromLines_last_vals (rustLines s) { default := none, timeout := none } c hc
  have hline : lineTimeoutVal (str "timeout" ++ ' ' :: v) = some 0 := by
    have hs : ¬ ((str "timeout" ++ ' ' :: v).head? = some '#' ∨ str "timeout" ++ ' ' :: v = []) :=
      cons_append_not_skip 't' (by decide) (str "imeout") (' ' :: v)
    have hkv : splitFirstSpace (str "timeout" ++ ' ' :: v) = (str "timeout", some v) :=
      splitFirstSpace_append (str "timeout") v (by decide)
    rw [lineTimeoutVal_keyval _ _ _ hs hkv, if_neg (by decide), if_pos rfl, hv]
    rfl
  have hpostnil : post.filterMap lineTimeoutVal = [] :=
    List.filterMap_eq_nil_iff.mpr hpost
  rw [hvals.2, hlines]
  simp only [List.filterMap_append, List.filterMap_cons, hline, hpostnil]
  rw [List.getLast?_concat]

/-- C3 witness: `"timeout abc\ndefault a"` — the unparseable timeout line is
the last timeout line, the other line is well-formed — parses with
`timeout == Some 0`. -/
theorem claim_C3_witness :
    ∃ c, Config.from_str (str "timeout abc\ndefault a") = .ok c ∧ c.timeout = some 0 :=
  claim_C3_timeout_fallback (str "timeout abc\ndefault a") [] [str "default a"] (str "abc")
    (by decide) (by decide) (by decide) (by decide)
